import Mathlib

/-!
Verification of the dacrisa_comandas back-end against its specification.

Each section embeds one module of the TypeScript source as executable Lean
definitions (strings become `List Char`/`String`, database rows become
structures, stateful functions become explicit state-passing functions),
and proves the specified properties about them.
-/

namespace Dacrisa

/-! ## Normalizer — `apps/api/src/lib/normalization.ts`, `normalizeText`

The source pipeline is: JavaScript `toUpperCase`, replace the Spanish
accent set (the `accentMap` of uppercase accented characters) by their
plain letters, delete every character outside `[A-Z0-9\s]`, collapse each
run of whitespace (`\s+`) to a single space, and `trim`.

`jsToUpper` models `String.prototype.toUpperCase` character-wise on the
ASCII and Latin-1 ranges (the only ranges that can survive the later
filter); multi-character expansions such as `ß → SS` are not modelled,
as those characters are removed by the filter in either form. -/

/-- The JavaScript `\s` character class (whitespace). -/
def isJsSpace (c : Char) : Bool :=
  (9 ≤ c.toNat && c.toNat ≤ 13) || c.toNat == 32 || c.toNat == 160 ||
  c.toNat == 0x1680 || (0x2000 ≤ c.toNat && c.toNat ≤ 0x200a) ||
  c.toNat == 0x2028 || c.toNat == 0x2029 || c.toNat == 0x202f ||
  c.toNat == 0x205f || c.toNat == 0x3000 || c.toNat == 0xfeff

/-- Character-wise model of JavaScript `toUpperCase` on ASCII `a-z` and the
Latin-1 lowercase block (`à`..`þ` except `÷`). -/
def jsToUpper (c : Char) : Char :=
  if (97 ≤ c.toNat ∧ c.toNat ≤ 122) ∨
     (224 ≤ c.toNat ∧ c.toNat ≤ 254 ∧ c.toNat ≠ 247) then
    Char.ofNat (c.toNat - 32)
  else c

/-- The `accentMap` replacement of `normalizeText` (uppercase accented
characters to their plain letter; all other characters unchanged). -/
def accentFold (c : Char) : Char :=
  if 192 ≤ c.toNat ∧ c.toNat ≤ 196 then 'A'
  else if c.toNat = 199 then 'C'
  else if 200 ≤ c.toNat ∧ c.toNat ≤ 203 then 'E'
  else if 204 ≤ c.toNat ∧ c.toNat ≤ 207 then 'I'
  else if c.toNat = 209 then 'N'
  else if 210 ≤ c.toNat ∧ c.toNat ≤ 214 then 'O'
  else if 217 ≤ c.toNat ∧ c.toNat ≤ 220 then 'U'
  else c

/-- `A-Z` or `0-9`. -/
def isUpperAlphaNum (c : Char) : Bool :=
  (65 ≤ c.toNat && c.toNat ≤ 90) || (48 ≤ c.toNat && c.toNat ≤ 57)

/-- The characters kept by `result.replace(/[^A-Z0-9\s]/g, '')`. -/
def keepChar (c : Char) : Bool :=
  isUpperAlphaNum c || isJsSpace c

/-- Characters the normalizer may output: `A-Z`, `0-9` or the space. -/
def isCanonChar (c : Char) : Bool :=
  isUpperAlphaNum c || c.toNat == 32

/-- Scanner model of `result.replace(/\s+/g, ' ')`: each maximal run of
whitespace becomes a single space.  The flag records whether the previous
character belonged to a whitespace run. -/
def collapseAux : Bool → List Char → List Char
  | _, [] => []
  | prevWs, c :: rest =>
    if isJsSpace c then
      if prevWs then collapseAux true rest else ' ' :: collapseAux true rest
    else c :: collapseAux false rest

/-- Drop leading JavaScript whitespace (one side of `trim`). -/
def dropLeadingWs : List Char → List Char
  | [] => []
  | c :: rest => if isJsSpace c then dropLeadingWs rest else c :: rest

/-- JavaScript `trim`: drop whitespace at both ends. -/
def trimWs (l : List Char) : List Char :=
  (dropLeadingWs (dropLeadingWs l).reverse).reverse

/-- `normalizeText` on a list of characters, step for step as in the source:
uppercase, fold accents, delete characters outside `[A-Z0-9\s]`, collapse
whitespace runs to single spaces, trim. -/
def normalizeChars (l : List Char) : List Char :=
  trimWs (collapseAux false (((l.map jsToUpper).map accentFold).filter keepChar))

/-- `normalizeText` of `normalization.ts` (returns `''` for the empty
string through the same pipeline, so no separate guard is needed). -/
def normalizeText (s : String) : String :=
  String.mk (normalizeChars s.data)

/-- `normalizeProducto` of `normalization.ts` (delegates to `normalizeText`). -/
def normalizeProducto (s : String) : String := normalizeText s

/-- No two consecutive spaces. -/
def NoDoubleSpace (l : List Char) : Prop :=
  l.Chain' (fun a b => ¬(a = ' ' ∧ b = ' '))

/-! ### Canonicity lemmas -/

lemma isCanonChar_bounds {c : Char} (h : isCanonChar c = true) :
    (65 ≤ c.toNat ∧ c.toNat ≤ 90) ∨ (48 ≤ c.toNat ∧ c.toNat ≤ 57) ∨ c.toNat = 32 := by
  simp [isCanonChar, isUpperAlphaNum, Bool.or_eq_true, Bool.and_eq_true,
    decide_eq_true_eq, Nat.beq_eq_true_eq] at h
  omega

lemma jsToUpper_canon {c : Char} (h : isCanonChar c = true) : jsToUpper c = c := by
  have hb := isCanonChar_bounds h
  unfold jsToUpper
  split
  · exfalso; omega
  · rfl

lemma accentFold_canon {c : Char} (h : isCanonChar c = true) : accentFold c = c := by
  have hb := isCanonChar_bounds h
  unfold accentFold
  repeat' split
  all_goals first | rfl | (exfalso; omega)

lemma keepChar_canon {c : Char} (h : isCanonChar c = true) : keepChar c = true := by
  have hb := isCanonChar_bounds h
  simp [keepChar, isUpperAlphaNum, isJsSpace, Bool.or_eq_true, Bool.and_eq_true,
    decide_eq_true_eq, Nat.beq_eq_true_eq]
  omega

lemma isJsSpace_space : isJsSpace ' ' = true := by decide

lemma char_eq_of_toNat_eq {c d : Char} (h : c.toNat = d.toNat) : c = d := by
  apply Char.eq_of_val_eq
  exact UInt32.toNat.inj h

lemma canon_space_iff {c : Char} (h : isCanonChar c = true) :
    isJsSpace c = true ↔ c = ' ' := by
  have hb := isCanonChar_bounds h
  constructor
  · intro hs
    simp [isJsSpace, Bool.or_eq_true, Bool.and_eq_true,
      decide_eq_true_eq, Nat.beq_eq_true_eq] at hs
    have hv : c.toNat = 32 := by omega
    exact char_eq_of_toNat_eq (by rw [hv]; decide)
  · intro hs; subst hs; decide

lemma not_space_of_isJsSpace_false {c : Char} (h : isJsSpace c = false) : c ≠ ' ' := by
  intro hc; subst hc; simp [isJsSpace_space] at h

lemma canon_of_keep_not_space {c : Char} (hk : keepChar c = true)
    (hs : isJsSpace c = false) : isCanonChar c = true := by
  simp [keepChar, hs] at hk
  simp [isCanonChar, hk]

lemma collapseAux_mem_canon (l : List Char) :
    ∀ flag, (∀ c ∈ l, keepChar c = true) →
      ∀ c ∈ collapseAux flag l, isCanonChar c = true := by
  induction l with
  | nil => intro flag _ c hc; simp [collapseAux] at hc
  | cons a rest ih =>
    intro flag h c hc
    have ha : keepChar a = true := h a (List.mem_cons_self a rest)
    have hrest : ∀ x ∈ rest, keepChar x = true :=
      fun x hx => h x (List.mem_cons_of_mem a hx)
    cases hs : isJsSpace a with
    | true =>
      cases flag with
      | true =>
        simp only [collapseAux, hs, if_true, if_pos] at hc
        exact ih true hrest c hc
      | false =>
        simp only [collapseAux, hs, if_true] at hc
        rcases List.mem_cons.mp hc with hcs | hcm
        · subst hcs; decide
        · exact ih true hrest c hcm
    | false =>
      simp only [collapseAux, hs, Bool.false_eq_true, if_false] at hc
      rcases List.mem_cons.mp hc with hcs | hcm
      · subst hcs; exact canon_of_keep_not_space ha hs
      · exact ih false hrest c hcm

lemma collapseAux_chain (l : List Char) :
    ∀ flag, NoDoubleSpace (collapseAux flag l) ∧
      (flag = true → ∀ c ∈ (collapseAux flag l).head?, c ≠ ' ') := by
  induction l with
  | nil =>
    intro flag
    constructor
    · simp [collapseAux, NoDoubleSpace]
    · intro _ c hc; simp [collapseAux] at hc
  | cons a rest ih =>
    intro flag
    cases hs : isJsSpace a with
    | true =>
      cases flag with
      | true =>
        simp only [collapseAux, hs, if_true, if_pos]
        exact ⟨(ih true).1, fun _ => (ih true).2 rfl⟩
      | false =>
        simp only [collapseAux, hs, if_true]
        constructor
        · refine List.chain'_cons'.mpr ⟨?_, (ih true).1⟩
          intro h hh
          have := (ih true).2 rfl h hh
          tauto
        · intro hcontra; cases hcontra
    | false =>
      have hane : a ≠ ' ' := not_space_of_isJsSpace_false hs
      simp only [collapseAux, hs, Bool.false_eq_true, if_false]
      constructor
      · refine List.chain'_cons'.mpr ⟨?_, (ih false).1⟩
        intro h _
        tauto
      · intro _ c hc
        simp at hc
        subst hc
        exact hane

lemma dropLeadingWs_head {l : List Char} {c : Char}
    (h : (dropLeadingWs l).head? = some c) : isJsSpace c = false := by
  induction l with
  | nil => simp [dropLeadingWs] at h
  | cons a rest ih =>
    cases hs : isJsSpace a with
    | true => simp only [dropLeadingWs, hs, if_true] at h; exact ih h
    | false =>
      simp only [dropLeadingWs, hs, Bool.false_eq_true, if_false,
        List.head?_cons, Option.some.injEq] at h
      subst h; exact hs

lemma dropLeadingWs_mem {l : List Char} {c : Char}
    (h : c ∈ dropLeadingWs l) : c ∈ l := by
  induction l with
  | nil => simp [dropLeadingWs] at h
  | cons a rest ih =>
    cases hs : isJsSpace a with
    | true =>
      simp only [dropLeadingWs, hs, if_true] at h
      exact List.mem_cons_of_mem a (ih h)
    | false =>
      simp only [dropLeadingWs, hs, Bool.false_eq_true, if_false] at h
      exact h

lemma dropLeadingWs_chain {l : List Char} (h : NoDoubleSpace l) :
    NoDoubleSpace (dropLeadingWs l) := by
  induction l with
  | nil => simpa [dropLeadingWs] using h
  | cons a rest ih =>
    cases hs : isJsSpace a with
    | true =>
      simp only [dropLeadingWs, hs, if_true]
      exact ih ((List.chain'_cons'.mp h).2)
    | false =>
      simpa only [dropLeadingWs, hs, Bool.false_eq_true, if_false] using h

lemma dropLeadingWs_getLast {l : List Char} {c : Char}
    (h : (dropLeadingWs l).getLast? = some c) : l.getLast? = some c := by
  induction l with
  | nil => simp [dropLeadingWs] at h
  | cons a rest ih =>
    cases hs : isJsSpace a with
    | true =>
      simp only [dropLeadingWs, hs, if_true] at h
      have hr := ih h
      cases rest with
      | nil => simp at hr
      | cons b t => rw [List.getLast?_cons_cons]; exact hr
    | false =>
      simpa only [dropLeadingWs, hs, Bool.false_eq_true, if_false] using h

lemma dropLeadingWs_id {l : List Char}
    (h : ∀ c ∈ l.head?, isJsSpace c = false) : dropLeadingWs l = l := by
  cases l with
  | nil => rfl
  | cons a rest =>
    have ha : isJsSpace a = false := h a (by simp)
    simp only [dropLeadingWs, ha, Bool.false_eq_true, if_false]

lemma noDoubleSpace_reverse {l : List Char} (h : NoDoubleSpace l) :
    NoDoubleSpace l.reverse := by
  apply List.chain'_reverse.mpr
  exact h.imp (fun hab => by tauto)

lemma trimWs_mem {l : List Char} {c : Char} (h : c ∈ trimWs l) : c ∈ l := by
  unfold trimWs at h
  rw [List.mem_reverse] at h
  have h1 := dropLeadingWs_mem h
  rw [List.mem_reverse] at h1
  exact dropLeadingWs_mem h1

lemma trimWs_chain {l : List Char} (h : NoDoubleSpace l) :
    NoDoubleSpace (trimWs l) := by
  unfold trimWs
  exact noDoubleSpace_reverse (dropLeadingWs_chain (noDoubleSpace_reverse (dropLeadingWs_chain h)))

lemma trimWs_getLast {l : List Char} {c : Char}
    (h : (trimWs l).getLast? = some c) : isJsSpace c = false := by
  unfold trimWs at h
  rw [List.getLast?_reverse] at h
  exact dropLeadingWs_head h

lemma trimWs_head {l : List Char} {c : Char}
    (h : (trimWs l).head? = some c) : isJsSpace c = false := by
  unfold trimWs at h
  rw [List.head?_reverse] at h
  have h1 := dropLeadingWs_getLast h
  rw [List.getLast?_reverse] at h1
  exact dropLeadingWs_head h1

lemma trimWs_id {l : List Char}
    (hh : ∀ c ∈ l.head?, isJsSpace c = false)
    (hl : ∀ c ∈ l.getLast?, isJsSpace c = false) : trimWs l = l := by
  unfold trimWs
  rw [dropLeadingWs_id hh]
  rw [dropLeadingWs_id (by simpa [List.head?_reverse] using hl)]
  exact List.reverse_reverse l

lemma collapseAux_id (l : List Char) :
    ∀ flag, (∀ c ∈ l, isCanonChar c = true) → NoDoubleSpace l →
      (flag = true → ∀ c ∈ l.head?, c ≠ ' ') → collapseAux flag l = l := by
  induction l with
  | nil => intro flag _ _ _; rfl
  | cons a rest ih =>
    intro flag hcanon hchain hhead
    have ha : isCanonChar a = true := hcanon a (List.mem_cons_self a rest)
    have hrest : ∀ c ∈ rest, isCanonChar c = true :=
      fun c hc => hcanon c (List.mem_cons_of_mem a hc)
    have hchain' := List.chain'_cons'.mp hchain
    cases hs : isJsSpace a with
    | true =>
      have haspace : a = ' ' := (canon_space_iff ha).mp hs
      cases flag with
      | true =>
        exact absurd haspace (hhead rfl a (by simp))
      | false =>
        simp only [collapseAux, hs, if_true, Bool.false_eq_true, if_false]
        rw [ih true hrest hchain'.2]
        · rw [haspace]
        · intro _ c hc
          have := hchain'.1 c hc
          rw [haspace] at this
          tauto
    | false =>
      simp only [collapseAux, hs, Bool.false_eq_true, if_false]
      rw [ih false hrest hchain'.2 (by intro h; cases h)]

lemma map_id_of_mem {l : List Char} {f : Char → Char}
    (h : ∀ c ∈ l, f c = c) : l.map f = l := by
  induction l with
  | nil => rfl
  | cons a rest ih =>
    simp only [List.map_cons, h a (List.mem_cons_self a rest)]
    rw [ih (fun c hc => h c (List.mem_cons_of_mem a hc))]

/-- Everything `normalizeChars` outputs is canonical: only `A-Z`, `0-9`
and single interior spaces, with no space at either end. -/
lemma normalizeChars_canonical (l : List Char) :
    (∀ c ∈ normalizeChars l, isCanonChar c = true) ∧
      NoDoubleSpace (normalizeChars l) ∧
      (∀ c ∈ (normalizeChars l).head?, c ≠ ' ') ∧
      (∀ c ∈ (normalizeChars l).getLast?, c ≠ ' ') := by
  unfold normalizeChars
  set filtered := ((l.map jsToUpper).map accentFold).filter keepChar with hf
  have hkeep : ∀ c ∈ filtered, keepChar c = true := by
    intro c hc
    exact List.of_mem_filter hc
  refine ⟨?_, ?_, ?_, ?_⟩
  · intro c hc
    exact collapseAux_mem_canon filtered false hkeep c (trimWs_mem hc)
  · exact trimWs_chain (collapseAux_chain filtered false).1
  · intro c hc
    exact not_space_of_isJsSpace_false (trimWs_head hc)
  · intro c hc
    exact not_space_of_isJsSpace_false (trimWs_getLast hc)

/-- `normalizeChars` is the identity on canonical lists. -/
lemma normalizeChars_id {l : List Char}
    (hcanon : ∀ c ∈ l, isCanonChar c = true)
    (hchain : NoDoubleSpace l)
    (hhead : ∀ c ∈ l.head?, c ≠ ' ')
    (hlast : ∀ c ∈ l.getLast?, c ≠ ' ') : normalizeChars l = l := by
  unfold normalizeChars
  rw [map_id_of_mem (fun c hc => jsToUpper_canon (hcanon c hc))]
  rw [map_id_of_mem (fun c hc => accentFold_canon (hcanon c hc))]
  rw [List.filter_eq_self.mpr (fun c hc => keepChar_canon (hcanon c hc))]
  rw [collapseAux_id l false hcanon hchain (by intro h; cases h)]
  apply trimWs_id
  · intro c hc
    have hcm : c ∈ l := List.mem_of_mem_head? hc
    by_cases hs : isJsSpace c = true
    · exact absurd ((canon_space_iff (hcanon c hcm)).mp hs) (hhead c hc)
    · simpa using hs
  · intro c hc
    have hcm : c ∈ l := List.mem_of_mem_getLast? hc
    by_cases hs : isJsSpace c = true
    · exact absurd ((canon_space_iff (hcanon c hcm)).mp hs) (hlast c hc)
    · simpa using hs

/-- C10: the normalizer is idempotent and its output is canonical: for
every input string `s`, `normalizeText (normalizeText s) = normalizeText s`,
and `normalizeText s` contains only characters from `[A-Z0-9 ]`, has no
leading or trailing space, and no two consecutive spaces. -/
theorem normalizeText_idempotent_and_canonical (s : String) :
    normalizeText (normalizeText s) = normalizeText s ∧
      (∀ c ∈ (normalizeText s).data, isCanonChar c = true) ∧
      (∀ c ∈ (normalizeText s).data.head?, c ≠ ' ') ∧
      (∀ c ∈ (normalizeText s).data.getLast?, c ≠ ' ') ∧
      NoDoubleSpace (normalizeText s).data := by
  have hdata : (normalizeText s).data = normalizeChars s.data := rfl
  obtain ⟨hcanon, hchain, hhead, hlast⟩ := normalizeChars_canonical s.data
  refine ⟨?_, ?_, ?_, ?_, ?_⟩
  · show String.mk (normalizeChars (normalizeText s).data) = normalizeText s
    rw [hdata, normalizeChars_id hcanon hchain hhead hlast]
    rfl
  · rw [hdata]; exact hcanon
  · rw [hdata]; exact hhead
  · rw [hdata]; exact hlast
  · rw [hdata]; exact hchain

/-! ## Product matcher — `apps/api/src/lib/product-matcher.ts`, `matchProducto`

The fuzzy phase calls `fuzzball.extract` with `scorer: fuzzball.ratio`.
`fuzzball.ratio` pre-processes both strings (`full_process`: every
character outside `[A-Za-z0-9]` becomes a space, then lowercase, then
trim) and returns `Math.round(100 * (lensum - d) / lensum)` where
`lensum` is the sum of the two lengths and `d` is the Levenshtein
distance with substitution cost 2.  `levDist` below is the standard
row-by-row dynamic program with a parametric substitution cost, so the
same definition also expresses the plain (unit-substitution) Levenshtein
distance used by the specification's formula. -/

/-- Character-wise model of JavaScript `toLowerCase` on ASCII `A-Z` and
the Latin-1 uppercase block (`À`..`Þ` except `×`). -/
def jsToLower (c : Char) : Char :=
  if (65 ≤ c.toNat ∧ c.toNat ≤ 90) ∨
     (192 ≤ c.toNat ∧ c.toNat ≤ 222 ∧ c.toNat ≠ 215) then
    Char.ofNat (c.toNat + 32)
  else c

/-- ASCII letter or digit (the characters `full_process` keeps; `\W|_`
is replaced by a space). -/
def isAsciiAlphaNum (c : Char) : Bool :=
  (65 ≤ c.toNat && c.toNat ≤ 90) || (97 ≤ c.toNat && c.toNat ≤ 122) ||
  (48 ≤ c.toNat && c.toNat ≤ 57)

/-- fuzzball `full_process`: replace `\W|_` by spaces, lowercase, trim. -/
def fullProcess (l : List Char) : List Char :=
  trimWs ((l.map (fun c => if isAsciiAlphaNum c then c else ' ')).map jsToLower)

/-- Inner loop of one row of the Levenshtein dynamic program.
`left` is the cell just computed in the current row, `prev` the suffix of
the previous row starting at the diagonal cell. -/
def levGo (scost : Nat) (x : Char) : Nat → List Char → List Nat → List Nat
  | _, [], _ => []
  | left, y :: ys, prev =>
    let diag := prev.headD 0
    let up := prev.tail.headD 0
    let cell := min (min (left + 1) (up + 1)) (diag + if x = y then 0 else scost)
    cell :: levGo scost x cell ys prev.tail

/-- One row step of the Levenshtein dynamic program. -/
def levRowStep (scost : Nat) (x : Char) (ys : List Char) (prev : List Nat) : List Nat :=
  (prev.headD 0 + 1) :: levGo scost x (prev.headD 0 + 1) ys prev

/-- Levenshtein distance with substitution cost `scost` (insertions and
deletions cost 1). -/
def levDist (scost : Nat) (a b : List Char) : Nat :=
  (a.foldl (fun row x => levRowStep scost x b row) (List.range (b.length + 1))).getLastD 0

/-- `fuzzball.ratio`: `Math.round(100 * (lensum - d) / lensum)` with `d`
the substitution-cost-2 Levenshtein distance of the two `full_process`ed
strings; 0 when either processed string is empty.  `Math.round x` for
`x ≥ 0` is `⌊(2·num + den) / (2·den)⌋` on the fraction `num/den`. -/
def fuzzballRatio (a b : List Char) : Nat :=
  let pa := fullProcess a
  let pb := fullProcess b
  if pa = [] ∨ pb = [] then 0
  else
    let lensum := pa.length + pb.length
    let d := levDist 2 pa pb
    (2 * (100 * (lensum - d)) + lensum) / (2 * lensum)

/-- A row of the active products catalog as consumed by the matcher. -/
structure ProductoMaster where
  id : String
  producto_norm : String
  familia : Nat
deriving DecidableEq, Repr

inductive MatchType
  | EXACT
  | FUZZY
  | NO_MATCH
deriving DecidableEq, Repr

structure MatchResult where
  type : MatchType
  producto_master_id : Option String
  familia_producto_id : Option Nat
  match_score : ℚ
deriving DecidableEq, Repr

def noMatchResult : MatchResult :=
  { type := .NO_MATCH, producto_master_id := none,
    familia_producto_id := none, match_score := 0 }

/-- `DEFAULT_FUZZY_THRESHOLD` (the value of `getFuzzyThreshold()` when the
environment does not override it). -/
def defaultFuzzyThreshold : Nat := 80

/-- `fuzzball.extract` with `limit: 1, cutoff: 0`: the choice with the
highest score (first such choice on ties, as the sort is stable), or
`none` when there are no choices. -/
def extractBest (query : List Char) (ps : List ProductoMaster) :
    Option (ProductoMaster × Nat) :=
  ps.foldl
    (fun acc p =>
      let s := fuzzballRatio query p.producto_norm.data
      match acc with
      | none => some (p, s)
      | some (q, bs) => if bs < s then some (p, s) else some (q, bs))
    none

/-- `matchProducto` of `product-matcher.ts`.  The fuzzy threshold is made
an explicit argument (the source reads it from the environment through
`getFuzzyThreshold`, defaulting to `defaultFuzzyThreshold`). -/
def matchProducto (productoRaw : String) (productosMaster : List ProductoMaster)
    (threshold : Nat) : MatchResult :=
  if productoRaw = "" then noMatchResult
  else if productosMaster = [] then noMatchResult
  else
    let productoNorm := normalizeProducto productoRaw
    if productoNorm = "" then noMatchResult
    else
      match productosMaster.find? (fun p => p.producto_norm == productoNorm) with
      | some p =>
          { type := .EXACT, producto_master_id := some p.id,
            familia_producto_id := some p.familia, match_score := 1 }
      | none =>
          match extractBest productoNorm.data productosMaster with
          | some (p, s) =>
              if threshold ≤ s then
                { type := .FUZZY, producto_master_id := some p.id,
                  familia_producto_id := some p.familia,
                  match_score := (s : ℚ) / 100 }
              else noMatchResult
          | none => noMatchResult

/-- Modelled from the spec's words (§4.E fuzzy phase): the "Levenshtein
ratio `100 × (1 − edit_distance / max(len_a, len_b))`" meets threshold
`t`, with the plain unit-cost Levenshtein distance.  Stated without
division: `100·(m − d) ≥ t·m` where `m = max(len_a, len_b)`. -/
def specLevRatioMeets (a b : List Char) (t : Nat) : Prop :=
  t * max a.length b.length ≤ 100 * (max a.length b.length - levDist 1 a b)

instance (a b : List Char) (t : Nat) : Decidable (specLevRatioMeets a b t) := by
  unfold specLevRatioMeets; infer_instance

/-- The catalog of the spec's seed test 6. -/
def cocaCatalog : List ProductoMaster :=
  [{ id := "prod1", producto_norm := "COCA COLA", familia := 2 }]

/-- The maximum `fuzzball.ratio` score of the query against the catalog. -/
def bestScore (query : List Char) (ps : List ProductoMaster) : Nat :=
  ps.foldl (fun acc p => max acc (fuzzballRatio query p.producto_norm.data)) 0

lemma extractBest_foldl_max (query : List Char) :
    ∀ (ps : List ProductoMaster) (q : ProductoMaster) (s : Nat),
      ∃ r, ps.foldl
          (fun acc p =>
            let sc := fuzzballRatio query p.producto_norm.data
            match acc with
            | none => some (p, sc)
            | some (q', bs) => if bs < sc then some (p, sc) else some (q', bs))
          (some (q, s)) =
        some (r, ps.foldl (fun acc p => max acc (fuzzballRatio query p.producto_norm.data)) s) := by
  intro ps
  induction ps with
  | nil => intro q s; exact ⟨q, rfl⟩
  | cons p rest ih =>
    intro q s
    simp only [List.foldl_cons]
    by_cases hlt : s < fuzzballRatio query p.producto_norm.data
    · obtain ⟨r, hr⟩ := ih p (fuzzballRatio query p.producto_norm.data)
      refine ⟨r, ?_⟩
      have hmax : s ⊔ fuzzballRatio query p.producto_norm.data =
          fuzzballRatio query p.producto_norm.data := by omega
      rw [if_pos hlt, hmax]
      exact hr
    · obtain ⟨r, hr⟩ := ih q s
      refine ⟨r, ?_⟩
      have hmax : s ⊔ fuzzballRatio query p.producto_norm.data = s := by omega
      rw [if_neg hlt, hmax]
      exact hr

lemma extractBest_eq_bestScore (query : List Char) {ps : List ProductoMaster}
    (hps : ps ≠ []) : ∃ r, extractBest query ps = some (r, bestScore query ps) := by
  cases ps with
  | nil => exact absurd rfl hps
  | cons p rest =>
    obtain ⟨r, hr⟩ := extractBest_foldl_max query rest p (fuzzballRatio query p.producto_norm.data)
    refine ⟨r, ?_⟩
    unfold extractBest bestScore
    simp only [List.foldl_cons, Nat.zero_max]
    exact hr

/-- C7 counterexample: with catalog `{"COCA COLA"}` and raw input
`"coca-kola"`, `matchProducto` returns a FUZZY match at threshold 80,
yet the specification's own formula `100 × (1 − lev/max(len_a, len_b))`
evaluates to `700/9 ≈ 77.8 < 80` on the same pair, so the claim that the
matcher returns FUZZY exactly when that formula meets the threshold is
false (and the spec's asserted ratio 89 is not attained either). -/
theorem matchProducto_spec_formula_counterexample :
    (matchProducto "coca-kola" cocaCatalog 80).type = MatchType.FUZZY ∧
      ¬ specLevRatioMeets (normalizeProducto "coca-kola").data "COCA COLA".data 80 ∧
      (matchProducto "coca-kola" cocaCatalog 80).match_score = ((82 : ℕ) : ℚ) / 100 := by
  refine ⟨rfl, by decide, rfl⟩

/-- C7 (amended): for a non-empty raw product, a non-empty catalog and a
non-empty normalized key with no exact match, `matchProducto` returns a
FUZZY match exactly when the maximum fuzzball ratio — that is,
`round(100 × (1 − d/(len_a + len_b)))` with `d` the substitution-cost-2
Levenshtein distance on the `full_process`ed strings — meets the
threshold, and the returned score is that maximum divided by 100. -/
theorem matchProducto_fuzzy_iff_fuzzball_threshold
    (raw : String) (ps : List ProductoMaster) (t : Nat)
    (hraw : raw ≠ "") (hps : ps ≠ [])
    (hnorm : normalizeProducto raw ≠ "")
    (hexact : ∀ p ∈ ps, p.producto_norm ≠ normalizeProducto raw) :
    ((matchProducto raw ps t).type = MatchType.FUZZY ↔
      t ≤ bestScore (normalizeProducto raw).data ps) ∧
      (t ≤ bestScore (normalizeProducto raw).data ps →
        (matchProducto raw ps t).match_score =
          (bestScore (normalizeProducto raw).data ps : ℚ) / 100) := by
  have hfind : ps.find? (fun p => p.producto_norm == normalizeProducto raw) = none := by
    apply List.find?_eq_none.mpr
    intro p hp
    simpa using hexact p hp
  obtain ⟨r, hr⟩ := extractBest_eq_bestScore (normalizeProducto raw).data hps
  unfold matchProducto
  rw [if_neg hraw, if_neg hps]
  simp only [if_neg hnorm, hfind, hr]
  by_cases ht : t ≤ bestScore (normalizeProducto raw).data ps
  · rw [if_pos ht]
    exact ⟨⟨fun _ => ht, fun _ => rfl⟩, fun _ => rfl⟩
  · rw [if_neg ht]
    constructor
    · constructor
      · intro habs; exact absurd habs (by simp [noMatchResult])
      · intro h; exact absurd h ht
    · intro h; exact absurd h ht

/-- Witness for the amended C7 theorem: the spec's seed-test inputs
satisfy its hypotheses, and there the matcher returns FUZZY because the
maximal fuzzball ratio is 82 ≥ 80. -/
theorem matchProducto_fuzzy_iff_fuzzball_threshold_witness :
    ((matchProducto "coca-kola" cocaCatalog 80).type = MatchType.FUZZY ↔
      80 ≤ bestScore (normalizeProducto "coca-kola").data cocaCatalog) ∧
      bestScore (normalizeProducto "coca-kola").data cocaCatalog = 82 :=
  ⟨(matchProducto_fuzzy_iff_fuzzball_threshold "coca-kola" cocaCatalog 80
      (by decide) (by decide) (by decide) (by decide)).1,
    by decide⟩

/-! ## Route-state manager — `route-state-manager.ts`, `updateRutaDiaEstado` -/

inductive EstadoVisual
  | AZUL
  | VERDE
  | ROJO
deriving DecidableEq, Repr

inductive EstadoLogico
  | ACTIVA
  | RECOLECTADA
deriving DecidableEq, Repr

/-- A `ruta_dia` row. -/
structure RutaDia where
  turno_id : String
  ruta_norm : String
  estado_visual : EstadoVisual
  estado_logico : EstadoLogico
  reactivaciones_count : Nat
deriving DecidableEq, Repr

/-- The new-state computation of `updateRutaDiaEstado`
(route-state-manager.ts lines 89–106), given the count of unprinted lines
`pendiente` (`countPendienteImprimible`). -/
def nuevoEstadoVisual (pendiente : Nat) (rutaDia : RutaDia) : EstadoVisual :=
  if pendiente = 0 then .VERDE
  else if rutaDia.estado_visual = .VERDE ∨ rutaDia.estado_logico = .RECOLECTADA then .ROJO
  else if rutaDia.estado_visual = .ROJO then .ROJO
  else .AZUL

/-- `updateRutaDiaEstado`: stores the computed visual state on the row
(lines 108–120). -/
def updateRutaDiaEstado (pendiente : Nat) (rutaDia : RutaDia) : RutaDia :=
  { rutaDia with estado_visual := nuevoEstadoVisual pendiente rutaDia }

/-- Modelled from the spec's words (§4.G visual transition): GREEN when
`unprinted == 0`; RED when `unprinted > 0` and (prior visual GREEN or
logical COLLECTED); RED stays RED while `unprinted > 0`; BLUE otherwise. -/
def visualStateSpec (unprinted : Nat) (prior : EstadoVisual) (logico : EstadoLogico) :
    EstadoVisual :=
  if unprinted = 0 then .VERDE
  else if prior = .VERDE ∨ logico = .RECOLECTADA then .ROJO
  else if prior = .ROJO then .ROJO
  else .AZUL

/-- C5: after a state update the stored `visual_state` equals the spec's
pure function of (unprinted count, prior visual state, logical state),
and the update changes nothing else on the row. -/
theorem updateRutaDiaEstado_matches_spec (pendiente : Nat) (rd : RutaDia) :
    (updateRutaDiaEstado pendiente rd).estado_visual =
      visualStateSpec pendiente rd.estado_visual rd.estado_logico ∧
      (updateRutaDiaEstado pendiente rd).estado_logico = rd.estado_logico ∧
      (updateRutaDiaEstado pendiente rd).reactivaciones_count = rd.reactivaciones_count ∧
      (updateRutaDiaEstado pendiente rd).turno_id = rd.turno_id ∧
      (updateRutaDiaEstado pendiente rd).ruta_norm = rd.ruta_norm :=
  ⟨rfl, rfl, rfl, rfl, rfl⟩

/-! ## Operator assignment — `apps/api/src/lib/operator-assignment.ts` -/

inductive AssignmentReason
  | AFINIDAD
  | ROUND_ROBIN
  | SIN_POOL
deriving DecidableEq, Repr

structure AssignmentResult where
  operario_id : Option String
  razon : AssignmentReason
deriving DecidableEq, Repr

/-- Result of `assignOperario` together with the rows it writes: the
round-robin cursor's `last_operario_id` and the affinity binding for the
client key (both unchanged except on the round-robin path). -/
structure AssignOutcome where
  result : AssignmentResult
  cursorLast : Option String
  afinidad : Option String
deriving DecidableEq, Repr

/-- The round-robin choice (operator-assignment.ts lines 98–114):
`poolIds[0]` when there is no cursor or its operator is not in the pool
or was the last pool element, else the element after it. -/
def nextRoundRobin (poolIds : List String) (last : Option String) : String :=
  match last with
  | none => poolIds.headD ""
  | some lastOp =>
    if lastOp ∈ poolIds then
      if poolIds.indexOf lastOp = poolIds.length - 1 then poolIds.headD ""
      else poolIds.getD (poolIds.indexOf lastOp + 1) ""
    else poolIds.headD ""

/-- `assignOperario` (lines 35–164) over its database inputs: `poolIds`
is the ordered (by `usuario_id` ascending) list of enabled operators for
the shift and functional code, `afinidad` the existing affinity operator
for the normalized client key, `cursorLast` the cursor's
`last_operario_id` (`none` also models a missing cursor row). -/
def assignOperario (poolIds : List String) (afinidad : Option String)
    (cursorLast : Option String) : AssignOutcome :=
  if poolIds = [] then
    { result := { operario_id := none, razon := .SIN_POOL },
      cursorLast := cursorLast, afinidad := afinidad }
  else
    let rrOutcome : AssignOutcome :=
      let next := nextRoundRobin poolIds cursorLast
      { result := { operario_id := some next, razon := .ROUND_ROBIN },
        cursorLast := some next, afinidad := some next }
    match afinidad with
    | some a =>
      if a ∈ poolIds then
        { result := { operario_id := some a, razon := .AFINIDAD },
          cursorLast := cursorLast, afinidad := afinidad }
      else rrOutcome
    | none => rrOutcome

/-- C6: empty pool yields a null operator with reason SIN_POOL; an
affinity whose operator is in the pool is returned as-is with reason
AFINIDAD and no state change; otherwise the element after the cursor's
operator in pool order is chosen (wrapping, and the first element when
the cursor is null or its operator left the pool), the cursor is updated
to it and the affinity is bound to it. -/
theorem assignOperario_pool_affinity_roundrobin
    (pool : List String) (af cur : Option String) :
    (pool = [] →
      assignOperario pool af cur =
        { result := { operario_id := none, razon := .SIN_POOL },
          cursorLast := cur, afinidad := af }) ∧
    (∀ a, af = some a → a ∈ pool →
      assignOperario pool af cur =
        { result := { operario_id := some a, razon := .AFINIDAD },
          cursorLast := cur, afinidad := af }) ∧
    (pool ≠ [] → (∀ a, af = some a → a ∉ pool) →
      assignOperario pool af cur =
        { result := { operario_id := some (nextRoundRobin pool cur),
                      razon := .ROUND_ROBIN },
          cursorLast := some (nextRoundRobin pool cur),
          afinidad := some (nextRoundRobin pool cur) }) ∧
    (nextRoundRobin pool none = pool.headD "") ∧
    (∀ last, last ∉ pool → nextRoundRobin pool (some last) = pool.headD "") ∧
    (∀ last, last ∈ pool → pool.indexOf last = pool.length - 1 →
      nextRoundRobin pool (some last) = pool.headD "") ∧
    (∀ last, last ∈ pool → pool.indexOf last ≠ pool.length - 1 →
      nextRoundRobin pool (some last) = pool.getD (pool.indexOf last + 1) "") := by
  refine ⟨?_, ?_, ?_, rfl, ?_, ?_, ?_⟩
  · intro hp
    unfold assignOperario
    rw [if_pos hp]
  · intro a haf hmem
    subst haf
    show (if pool = [] then _ else _) = _
    rw [if_neg (by rintro rfl; cases hmem)]
    simp only [if_pos hmem]
  · intro hp haf
    show (if pool = [] then _ else _) = _
    rw [if_neg hp]
    cases haf' : af with
    | none => rfl
    | some a =>
      have hnot : a ∉ pool := haf a haf'
      simp only [if_neg hnot]
  · intro last hmem
    show (if last ∈ pool then _ else _) = _
    rw [if_neg hmem]
  · intro last hmem hidx
    show (if last ∈ pool then _ else _) = _
    rw [if_pos hmem, if_pos hidx]
  · intro last hmem hidx
    show (if last ∈ pool then _ else _) = _
    rw [if_pos hmem, if_neg hidx]

/-- Witness for C6: with pool `[O1, O2]`, no affinity and cursor at `O1`,
round-robin picks `O2`, updates the cursor and binds the affinity. -/
theorem assignOperario_pool_affinity_roundrobin_witness :
    assignOperario ["O1", "O2"] none (some "O1") =
      { result := { operario_id := some "O2", razon := .ROUND_ROBIN },
        cursorLast := some "O2", afinidad := some "O2" } := by
  have h := (assignOperario_pool_affinity_roundrobin ["O1", "O2"] none (some "O1")).2.2.1
    (by decide) (by intro a ha; cases ha)
  rw [h]
  rfl

/-! ## Print-job manager — `apps/api/src/lib/print-job-manager.ts` -/

/-- The print-relevant columns of a `linea` row. -/
structure Linea where
  printed_at : Option Nat
  print_count : Nat
deriving DecidableEq, Repr

/-- Step 3 of `createPrintJob` (lines 89–115): first print stamps
`printed_at := now, print_count := 1`; any later print only increments
`print_count`. -/
def stampLinea (now : Nat) (l : Linea) : Linea :=
  if l.printed_at = none then { printed_at := some now, print_count := 1 }
  else { l with print_count := l.print_count + 1 }

/-- `createPrintJob` applies the stamp to exactly the job's lines (it
iterates over `lineaIds` and updates each row by id). -/
def stampLineas (now : Nat) (jobIds : List Nat) (db : List (Nat × Linea)) :
    List (Nat × Linea) :=
  db.map (fun il => if il.1 ∈ jobIds then (il.1, stampLinea now il.2) else il)

/-- A line as created by the batch processor and the carryover engine:
`printed_at` and `print_count` are left to the schema defaults `NULL`
and `0` (migration lines 223–224). -/
def newLinea : Linea := { printed_at := none, print_count := 0 }

/-- The print-stamping invariant: `printed_at` is null iff
`print_count == 0`. -/
def LineaInv (l : Linea) : Prop := l.printed_at = none ↔ l.print_count = 0

/-- C9: lines are created satisfying the invariant; stamping preserves
it; the first print sets `printed_at` to the commit time and
`print_count` to 1; every later print only increments `print_count` and
never changes `printed_at`; and a whole print job preserves the
invariant across the table. -/
theorem printed_at_iff_print_count
    (now : Nat) (l : Linea) (ids : List Nat) (db : List (Nat × Linea)) :
    LineaInv newLinea ∧
    (LineaInv l → LineaInv (stampLinea now l)) ∧
    (l.printed_at = none →
      stampLinea now l = { printed_at := some now, print_count := 1 }) ∧
    (∀ t, l.printed_at = some t →
      (stampLinea now l).printed_at = some t ∧
      (stampLinea now l).print_count = l.print_count + 1) ∧
    ((∀ p ∈ db, LineaInv p.2) → ∀ q ∈ stampLineas now ids db, LineaInv q.2) := by
  have hstamp : ∀ m : Linea, LineaInv m → LineaInv (stampLinea now m) := by
    intro m _
    unfold stampLinea
    by_cases h : m.printed_at = none
    · rw [if_pos h]
      exact ⟨fun habs => absurd habs (by intro hx; cases hx),
        fun habs => absurd habs one_ne_zero⟩
    · rw [if_neg h]
      exact ⟨fun habs => absurd habs h,
        fun habs => absurd habs (Nat.succ_ne_zero _)⟩
  refine ⟨⟨fun _ => rfl, fun _ => rfl⟩, hstamp l, ?_, ?_, ?_⟩
  · intro h
    unfold stampLinea
    rw [if_pos h]
  · intro t ht
    have h : l.printed_at ≠ none := by rw [ht]; intro habs; cases habs
    unfold stampLinea
    rw [if_neg h]
    exact ⟨ht, rfl⟩
  · intro hall q hq
    unfold stampLineas at hq
    obtain ⟨p, hp, hpq⟩ := List.mem_map.mp hq
    by_cases hmem : p.1 ∈ ids
    · rw [if_pos hmem] at hpq
      subst hpq
      exact hstamp p.2 (hall p hp)
    · rw [if_neg hmem] at hpq
      subst hpq
      exact hall p hp

/-- Witness for C9: stamping a fresh line at time 5 makes
`printed_at = some 5` and `print_count = 1`, and the invariant holds
before and after. -/
theorem printed_at_iff_print_count_witness :
    LineaInv newLinea ∧
      stampLinea 5 newLinea = { printed_at := some 5, print_count := 1 } ∧
      LineaInv (stampLinea 5 newLinea) := by
  obtain ⟨h1, h2, h3, _, _⟩ := printed_at_iff_print_count 5 newLinea [] []
  exact ⟨h1, h3 rfl, h2 h1⟩

/-! ## IMAP ingest worker — `services/imap-worker.ts`, `ingestNewMessages`

The fetch loop is modelled as a fold over the fetched messages, carrying
the growing database (lotes and eventos) and `lastProcessedUid`.  Times
are abstract instants (`Nat`).  Message extraction cannot fail in this
model, so the `ERROR_PARSE` branch of the source (lines 307–340) is not
exercised; the claims under verification quantify over messages whose
extraction succeeds. -/

inductive ParseStatus
  | PENDING
  | OK
  | ERROR_RUTA
  | ERROR_PARSE
deriving DecidableEq, Repr

/-- A `lote` row as created by the worker. -/
structure LoteRow where
  id : Nat
  imap_uidvalidity : Nat
  imap_uid : Nat
  subject_raw : String
  body_raw : String
  received_at : Nat
  parse_status : ParseStatus
  parse_error : Option String
  original_turno_id : String
  carried_over : Bool
deriving DecidableEq, Repr

/-- An `eventos` row as written by `registerEvent` (the stored
`entidad_tipo`/`entidad_id` are `LOTE`/`lote_id` when a lote id is given
and `TURNO`/`turno_id` otherwise; the payload's `imap_uid` is kept). -/
structure EventoRow where
  tipo : String
  lote_id : Option Nat
  turno_id : String
  payload_uid : Nat
deriving DecidableEq, Repr

/-- A fetched IMAP message: `envelope.subject` and `envelope.date` may be
missing, `source` is the raw RFC 822 source. -/
structure ImapMessage where
  uid : Nat
  subject : Option String
  date : Option Nat
  source : String
deriving DecidableEq, Repr

/-- Does `l` start with `pat`? -/
def listStartsWith : List Char → List Char → Bool
  | _, [] => true
  | [], _ :: _ => false
  | c :: l, d :: p => c == d && listStartsWith l p

/-- The suffix after the first occurrence of the (non-empty) pattern, or
`none` (JavaScript `indexOf` + `substring`). -/
def afterFirstSeq (pat : List Char) : List Char → Option (List Char)
  | [] => none
  | c :: rest =>
    if listStartsWith (c :: rest) pat then some ((c :: rest).drop pat.length)
    else afterFirstSeq pat rest

/-- `extractBodyFromSource` (imap-worker lines 406–426): everything after
the first `\r\n\r\n`; else after the first `\n\n`; else the whole source. -/
def extractBodyFromSource (source : String) : String :=
  match afterFirstSeq [Char.ofNat 13, Char.ofNat 10, Char.ofNat 13, Char.ofNat 10] source.data with
  | some rest => String.mk rest
  | none =>
    match afterFirstSeq [Char.ofNat 10, Char.ofNat 10] source.data with
    | some rest => String.mk rest
    | none => source

/-- The database state the ingest loop reads and writes. -/
structure IngestState where
  lotes : List LoteRow
  eventos : List EventoRow
  nextLoteId : Nat
deriving DecidableEq, Repr

/-- The idempotency lookup (lines 252–259): the unique index
`lote_imap_uidvalidity_imap_uid_key` makes `(uidvalidity, uid)` a key. -/
def findLoteByKey (v uid : Nat) (lotes : List LoteRow) : Option LoteRow :=
  lotes.find? (fun l => l.imap_uidvalidity == v && l.imap_uid == uid)

/-- One iteration of the fetch loop (lines 243–341) for the message `msg`
under mailbox uidvalidity `v` and active shift `turnoId`.  `cursorLastUid`
is the cursor read at the start of the poll (the loop's skip check,
line 246), `now` models `new Date()`; the second component of the
accumulator is `lastProcessedUid`. -/
def ingestMessage (v : Nat) (turnoId : String) (cursorLastUid : Nat) (now : Nat)
    (acc : IngestState × Nat) (msg : ImapMessage) : IngestState × Nat :=
  if msg.uid ≤ cursorLastUid then acc
  else
    match findLoteByKey v msg.uid acc.1.lotes with
    | some _ =>
      ({ acc.1 with
          eventos := acc.1.eventos ++
            [{ tipo := "DUPLICADO_IMAP_IGNORADO", lote_id := none,
               turno_id := turnoId, payload_uid := msg.uid }] },
       max acc.2 msg.uid)
    | none =>
      let lote : LoteRow :=
        { id := acc.1.nextLoteId
          imap_uidvalidity := v
          imap_uid := msg.uid
          subject_raw := msg.subject.getD "(Sin asunto)"
          body_raw := extractBodyFromSource msg.source
          received_at := msg.date.getD now
          parse_status := .OK
          parse_error := none
          original_turno_id := turnoId
          carried_over := false }
      ({ lotes := acc.1.lotes ++ [lote]
         eventos := acc.1.eventos ++
           [{ tipo := "NUEVO_CORREO_RECIBIDO", lote_id := some lote.id,
              turno_id := turnoId, payload_uid := msg.uid }]
         nextLoteId := acc.1.nextLoteId + 1 },
       max acc.2 msg.uid)

/-- `ingestNewMessages` over the fetched message list; returns the new
database state and the final `lastProcessedUid`. -/
def ingestNewMessages (v : Nat) (turnoId : String) (cursorLastUid : Nat) (now : Nat)
    (msgs : List ImapMessage) (st : IngestState) : IngestState × Nat :=
  msgs.foldl (ingestMessage v turnoId cursorLastUid now) (st, cursorLastUid)

/-- The `imap_state` cursor row. -/
structure ImapCursor where
  lastUid : Nat
  uidValidity : Option Nat
deriving DecidableEq, Repr

/-- The cursor save at the end of the poll (lines 344–346): persisted
only if `lastProcessedUid` advanced. -/
def saveCursorAfterIngest (v cursorLastUid : Nat) (lastProcessed : Nat)
    (cur : ImapCursor) : ImapCursor :=
  if cursorLastUid < lastProcessed then
    { lastUid := lastProcessed, uidValidity := some v }
  else cur

/-- At most one lote row per `(imap_uidvalidity, imap_uid)` pair. -/
def UniqueLoteKeys (lotes : List LoteRow) : Prop :=
  lotes.Pairwise (fun a b =>
    ¬(a.imap_uidvalidity = b.imap_uidvalidity ∧ a.imap_uid = b.imap_uid))

lemma ingestMessage_unique {v : Nat} {t : String} {cur now : Nat}
    {acc : IngestState × Nat} {msg : ImapMessage}
    (h : UniqueLoteKeys acc.1.lotes) :
    UniqueLoteKeys (ingestMessage v t cur now acc msg).1.lotes := by
  unfold ingestMessage
  by_cases hskip : msg.uid ≤ cur
  · rw [if_pos hskip]; exact h
  · rw [if_neg hskip]
    cases hfind : findLoteByKey v msg.uid acc.1.lotes with
    | some L => exact h
    | none =>
      apply List.pairwise_append.mpr
      refine ⟨h, List.pairwise_singleton _ _, ?_⟩
      intro a ha b hb
      rw [List.mem_singleton] at hb
      subst hb
      have hne := List.find?_eq_none.mp hfind a ha
      simp only [Bool.and_eq_true, beq_iff_eq, not_and] at hne
      intro hkey
      exact hne (by exact hkey.1) (by exact hkey.2)

lemma ingestNewMessages_unique {v : Nat} {t : String} {cur now : Nat}
    (msgs : List ImapMessage) :
    ∀ acc : IngestState × Nat, UniqueLoteKeys acc.1.lotes →
      UniqueLoteKeys (msgs.foldl (ingestMessage v t cur now) acc).1.lotes := by
  induction msgs with
  | nil => intro acc h; exact h
  | cons m rest ih =>
    intro acc h
    exact ih (ingestMessage v t cur now acc m) (ingestMessage_unique h)

lemma ingestMessage_snd_le {v : Nat} {t : String} {cur now : Nat}
    (acc : IngestState × Nat) (msg : ImapMessage) :
    acc.2 ≤ (ingestMessage v t cur now acc msg).2 := by
  unfold ingestMessage
  by_cases hskip : msg.uid ≤ cur
  · rw [if_pos hskip]
  · rw [if_neg hskip]
    cases hfind : findLoteByKey v msg.uid acc.1.lotes with
    | some L => exact Nat.le_max_left _ _
    | none => exact Nat.le_max_left _ _

lemma ingestFold_snd_le {v : Nat} {t : String} {cur now : Nat}
    (msgs : List ImapMessage) :
    ∀ acc : IngestState × Nat,
      acc.2 ≤ (msgs.foldl (ingestMessage v t cur now) acc).2 := by
  induction msgs with
  | nil => intro acc; exact Nat.le_refl _
  | cons m rest ih =>
    intro acc
    exact Nat.le_trans (ingestMessage_snd_le acc m)
      (ih (ingestMessage v t cur now acc m))

lemma ingestMessage_snd_ge_uid {v : Nat} {t : String} {cur now : Nat}
    (acc : IngestState × Nat) {msg : ImapMessage} (huid : cur < msg.uid) :
    msg.uid ≤ (ingestMessage v t cur now acc msg).2 := by
  unfold ingestMessage
  rw [if_neg (Nat.not_le.mpr huid)]
  cases hfind : findLoteByKey v msg.uid acc.1.lotes with
  | some L => exact Nat.le_max_right _ _
  | none => exact Nat.le_max_right _ _

lemma ingestFold_snd_ge_uid {v : Nat} {t : String} {cur now : Nat}
    {msgs : List ImapMessage} {msg : ImapMessage}
    (hmem : msg ∈ msgs) (huid : cur < msg.uid) :
    ∀ acc : IngestState × Nat,
      msg.uid ≤ (msgs.foldl (ingestMessage v t cur now) acc).2 := by
  induction msgs with
  | nil => cases hmem
  | cons m rest ih =>
    intro acc
    rcases List.mem_cons.mp hmem with hm | hm
    · subst hm
      exact Nat.le_trans (ingestMessage_snd_ge_uid acc huid)
        (ingestFold_snd_le rest _)
    · exact ih hm (ingestMessage v t cur now acc m)

/-- C1: ingest is idempotent against `(uidvalidity, uid)`.  (a) A full
ingest run preserves the at-most-one-row-per-key invariant (a duplicate
never inserts).  (b) When the fetched message's key already has a lote
row, the step appends exactly one `DUPLICADO_IMAP_IGNORADO` event,
leaves the lote table (and everything but the event log) unchanged, and
still raises `lastProcessedUid` to that UID.  (c) Every fetched UID above
the poll-start cursor, duplicate or not, ends `≤ lastProcessedUid`, and
the persisted cursor's `last_uid` ends at least that UID. -/
theorem ingest_unique_and_duplicate_ignored
    (v : Nat) (t : String) (cur now : Nat) (msgs : List ImapMessage)
    (st : IngestState) (uv : Option Nat) :
    (UniqueLoteKeys st.lotes →
      UniqueLoteKeys (ingestNewMessages v t cur now msgs st).1.lotes) ∧
    (∀ (lp : Nat) (L : LoteRow) (msg : ImapMessage), cur < msg.uid →
      findLoteByKey v msg.uid st.lotes = some L →
      ingestMessage v t cur now (st, lp) msg =
        ({ st with
            eventos := st.eventos ++
              [{ tipo := "DUPLICADO_IMAP_IGNORADO", lote_id := none,
                 turno_id := t, payload_uid := msg.uid }] },
         max lp msg.uid)) ∧
    (∀ msg ∈ msgs, cur < msg.uid →
      msg.uid ≤ (ingestNewMessages v t cur now msgs st).2 ∧
      msg.uid ≤ (saveCursorAfterIngest v cur
        (ingestNewMessages v t cur now msgs st).2 ⟨cur, uv⟩).lastUid) := by
  refine ⟨?_, ?_, ?_⟩
  · intro h
    exact ingestNewMessages_unique msgs (st, cur) h
  · intro lp L msg huid hfind
    unfold ingestMessage
    dsimp only
    rw [if_neg (Nat.not_le.mpr huid), hfind]
  · intro msg hmem huid
    have hsnd : msg.uid ≤ (ingestNewMessages v t cur now msgs st).2 :=
      ingestFold_snd_ge_uid hmem huid (st, cur)
    refine ⟨hsnd, ?_⟩
    unfold saveCursorAfterIngest
    by_cases hadv : cur < (ingestNewMessages v t cur now msgs st).2
    · rw [if_pos hadv]; exact hsnd
    · rw [if_neg hadv]
      exact absurd (Nat.lt_of_lt_of_le huid hsnd) hadv

/-- The lote row already present for `(uidvalidity 7, uid 5)`. -/
def dupLote : LoteRow :=
  { id := 0, imap_uidvalidity := 7, imap_uid := 5,
    subject_raw := "Ruta Norte", body_raw := "", received_at := 40,
    parse_status := .OK, parse_error := none,
    original_turno_id := "T1", carried_over := false }

/-- The database state holding `dupLote`. -/
def dupState : IngestState :=
  { lotes := [dupLote], eventos := [], nextLoteId := 1 }

/-- The same UID fetched again on a later poll. -/
def dupMessage : ImapMessage :=
  { uid := 5, subject := some "Ruta Norte", date := some 40, source := "x" }

/-- Witness for C1: a mailbox state already holding the lote for
`(uidvalidity 7, uid 5)`; re-fetching uid 5 keeps the single lote row
(the key invariant holds afterwards) and ends with
`lastProcessedUid ≥ 5`. -/
theorem ingest_unique_and_duplicate_ignored_witness :
    UniqueLoteKeys (ingestNewMessages 7 "T1" 0 50 [dupMessage] dupState).1.lotes ∧
      (5 : Nat) ≤ (ingestNewMessages 7 "T1" 0 50 [dupMessage] dupState).2 := by
  constructor
  · exact (ingest_unique_and_duplicate_ignored 7 "T1" 0 50 [dupMessage] dupState none).1
      (List.pairwise_singleton _ _)
  · exact ((ingest_unique_and_duplicate_ignored 7 "T1" 0 50 [dupMessage] dupState none).2.2
      dupMessage (List.mem_singleton.mpr rfl) (by decide)).1

/-- The message of the spec's seed test 1, as fetched by the worker. -/
def seedMessage : ImapMessage :=
  { uid := 5
    subject := some "Ruta Norte"
    date := some 100
    source := "Subject: Ruta Norte\r\n\r\nCliente: Super Uno\r\n1 L - Leche - 1.20" }

/-- C3: evaluating the worker on a fresh message shows that the created
lote stores the subject, the extracted body, the received time and the
active shift and that a `NUEVO_CORREO_RECIBIDO` event is published — but
its `parse_status` is `OK` (imap-worker line 292, annotated "Will be
parsed in TASK 05"), not `PENDING` as the spec states; the companion
`processAllPendingLotes` (batch-processor lines 376–384) selects only
`PENDING` lotes, so worker-created lotes are invisible to it. -/
theorem ingest_creates_lote_with_status_OK :
    (ingestNewMessages 7 "T1" 0 50 [seedMessage]
        { lotes := [], eventos := [], nextLoteId := 0 }).1 =
      { lotes := [{ id := 0, imap_uidvalidity := 7, imap_uid := 5,
                    subject_raw := "Ruta Norte",
                    body_raw := "Cliente: Super Uno\r\n1 L - Leche - 1.20",
                    received_at := 100,
                    parse_status := .OK, parse_error := none,
                    original_turno_id := "T1", carried_over := false }],
        eventos := [{ tipo := "NUEVO_CORREO_RECIBIDO", lote_id := some 0,
                      turno_id := "T1", payload_uid := 5 }],
        nextLoteId := 1 } ∧
      ParseStatus.OK ≠ ParseStatus.PENDING := by
  exact ⟨by decide, by decide⟩

/-! ## Batch processor — `batch-processor.ts`, `processLote` -/

/-- The early-return guard of `processLote` (batch-processor line 36,
"Skip if already processed or has error"): the function returns
immediately iff the lote's `parse_status` is neither `PENDING` nor `OK`.
An already-OK lote therefore passes the guard and is reprocessed — its
clients and lines are created again unconditionally by lines 202–308 —
while `ERROR_*` lotes (which the spec says may be retried) are the ones
skipped. -/
def processLoteSkips (s : ParseStatus) : Bool :=
  !(s == ParseStatus.PENDING) && !(s == ParseStatus.OK)

/-- C2: the guard does NOT skip an already-OK lote (so a second
invocation re-runs the whole pipeline and duplicates its ClientOrder and
Line rows instead of being a no-op), and it DOES skip ERROR lotes. -/
theorem processLote_reprocesses_OK_lote :
    processLoteSkips ParseStatus.OK = false ∧
      processLoteSkips ParseStatus.PENDING = false ∧
      processLoteSkips ParseStatus.ERROR_PARSE = true ∧
      processLoteSkips ParseStatus.ERROR_RUTA = true := by
  decide

/-! ## Shift manager — `apps/api/src/routes/turnos.ts`, POST /iniciar -/

inductive TurnoApiError
  | TURNO_YA_ACTIVO
  | HORARIO_NO_ENCONTRADO
  | TURNO_DUPLICADO
deriving DecidableEq, Repr

structure TurnoRow where
  id : Nat
  fecha : Nat
  franja : String
  jefe_id : String
  estado : String
  started_at : Option Nat
  ended_at : Option Nat
deriving DecidableEq, Repr

/-- The side-effecting calls a shift-open request could make, in order.
`invokeCarryover` (`executeCarryover` of carryover.ts) and
`invokeImapPoll` (`imapWorker.poll` / `executeBacklog`) are listed so
that their absence from the handler's trace can be stated. -/
inductive TurnoSideEffect
  | createTurno (t : TurnoRow)
  | createEvento (tipo : String)
  | invokeCarryover
  | invokeImapPoll
deriving DecidableEq, Repr

/-- `calculateTurnoEndTime` (turno-rules.ts lines 77–84): places the
schedule's end time-of-day on the shift's date; instants are abstract. -/
def calculateTurnoEndTime (fecha endOfSchedule : Nat) : Nat :=
  fecha + endOfSchedule

/-- The validation context read by POST /api/turnos/iniciar: whether any
turno is ACTIVE (`validateSingleActiveTurno`), the end time of the active
schedule row for the slot when one exists (`validateHorarioActivo`), and
whether a turno already exists for `(fecha, franja)`
(`validateTurnoDuplicado`). -/
structure IniciarTurnoCtx where
  hayTurnoActivo : Bool
  horarioEndTime : Option Nat
  turnoDuplicado : Bool
  nextTurnoId : Nat
  now : Nat
deriving DecidableEq, Repr

/-- POST /api/turnos/iniciar (turnos.ts lines 119–183): the three
validations, the turno creation (estado ACTIVO, `started_at := now`,
`ended_at` from the schedule), the `TURNO_INICIADO` event, then the 201
response.  The returned list records every side-effecting call the
handler makes on the success path, in order. -/
def iniciarTurno (ctx : IniciarTurnoCtx) (franja : String) (fecha : Nat)
    (userId : String) : Except TurnoApiError (TurnoRow × List TurnoSideEffect) :=
  if ctx.hayTurnoActivo then .error .TURNO_YA_ACTIVO
  else
    match ctx.horarioEndTime with
    | none => .error .HORARIO_NO_ENCONTRADO
    | some endTime =>
      if ctx.turnoDuplicado then .error .TURNO_DUPLICADO
      else
        let turno : TurnoRow :=
          { id := ctx.nextTurnoId, fecha := fecha, franja := franja,
            jefe_id := userId, estado := "ACTIVO",
            started_at := some ctx.now,
            ended_at := some (calculateTurnoEndTime fecha endTime) }
        .ok (turno, [.createTurno turno, .createEvento "TURNO_INICIADO"])

/-- C4: every successful open does transition the shift to ACTIVE and
record `started_at`, but the handler's side-effect trace contains neither
the carryover invocation nor an IMAP poll: `executeCarryover` and the
worker's `executeBacklog`/`poll` are never called from the open path
(they have no caller among the routes), contradicting the claim and the
repository's own IMAP-worker documentation ("Backlog al Iniciar Turno"). -/
theorem iniciarTurno_triggers_no_carryover_and_no_poll
    (ctx : IniciarTurnoCtx) (franja : String) (fecha : Nat) (userId : String)
    (hactivo : ctx.hayTurnoActivo = false)
    (hdup : ctx.turnoDuplicado = false) :
    ∀ endTime, ctx.horarioEndTime = some endTime →
      ∃ turno efs, iniciarTurno ctx franja fecha userId = .ok (turno, efs) ∧
        turno.estado = "ACTIVO" ∧
        turno.started_at = some ctx.now ∧
        TurnoSideEffect.invokeCarryover ∉ efs ∧
        TurnoSideEffect.invokeImapPoll ∉ efs := by
  intro endTime hh
  unfold iniciarTurno
  simp only [hactivo, hh, hdup, Bool.false_eq_true, if_false]
  refine ⟨_, _, rfl, rfl, rfl, ?_, ?_⟩
  · intro hmem
    simp only [List.mem_cons, List.mem_singleton] at hmem
    rcases hmem with h | h | h <;> cases h
  · intro hmem
    simp only [List.mem_cons, List.mem_singleton] at hmem
    rcases hmem with h | h | h <;> cases h

/-- Witness for C4: a concrete passing validation context; the open
succeeds, the turno is ACTIVE, and no carryover or poll appears in the
trace. -/
theorem iniciarTurno_triggers_no_carryover_and_no_poll_witness :
    ∃ turno efs,
      iniciarTurno { hayTurnoActivo := false, horarioEndTime := some 8,
                     turnoDuplicado := false, nextTurnoId := 1, now := 3 }
        "MANANA" 100 "U1" = .ok (turno, efs) ∧
        turno.estado = "ACTIVO" ∧
        turno.started_at = some 3 ∧
        TurnoSideEffect.invokeCarryover ∉ efs ∧
        TurnoSideEffect.invokeImapPoll ∉ efs :=
  iniciarTurno_triggers_no_carryover_and_no_poll
    { hayTurnoActivo := false, horarioEndTime := some 8,
      turnoDuplicado := false, nextTurnoId := 1, now := 3 }
    "MANANA" 100 "U1" rfl rfl 8 rfl

/-! ## Carryover engine — `apps/api/src/lib/carryover.ts`, `executeCarryover`

The carryover loop is modelled over an explicit database whose lotes
carry their pedidos and lineas (the shape of the loop's
`include: { ruta_dia, pedidos: { include: lineas } }` query).  The lote
insert goes through `insertCarryLoteUnique`, which models the unique
index `lote_imap_uidvalidity_imap_uid_key` of the schema (migration
line 418): PostgreSQL rejects a second row with the same
`(imap_uidvalidity, imap_uid)`, and `prisma.lote.create` then throws.
`executeCarryover` runs with no surrounding transaction, so rows written
before the throw (the `ruta_dia`) stay; the error value carries the
database at the moment of the throw. -/

/-- A `linea` row as read and copied by the carryover loop. -/
structure CarryLinea where
  seq_in_cliente : Nat
  cantidad : ℚ
  unidad_raw : String
  producto_raw : String
  producto_norm : String
  precio_raw : Option String
  precio_num : Option ℚ
  moneda : Option String
  match_method : String
  match_score : Option ℚ
  familia : Nat
  codigo_funcional : Nat
  operario_id : Option String
  assigned_at : Option Nat
  linea_observacion : Option String
  printed_at : Option Nat
  print_count : Nat
deriving DecidableEq, Repr

/-- A `pedido_cliente` row with its lineas. -/
structure CarryPedido where
  codigo_cliente : String
  nombre_cliente_raw : String
  localidad_raw : Option String
  cliente_affinity_key : String
  observaciones : Option String
  lineas : List CarryLinea
deriving DecidableEq, Repr

/-- A `lote` row with its pedidos; `ruta_norm` is the included
`ruta_dia`'s route name (and `original_turno_id` that row's shift). -/
structure CarryLote where
  id : Nat
  imap_uid : Nat
  imap_uidvalidity : Nat
  received_at : Nat
  subject_raw : String
  body_raw : String
  parse_status : ParseStatus
  ruta_norm : Option String
  productos_version_id : Option Nat
  rutas_version_id : Option Nat
  original_turno_id : String
  carried_over : Bool
  pedidos : List CarryPedido
deriving DecidableEq, Repr

/-- The `LOTE_CARRYOVER` event payload fields the claim names. -/
structure CarryEvento where
  tipo : String
  lote_original_id : Nat
  lote_nuevo_id : Nat
  lineas_count : Nat
deriving DecidableEq, Repr

structure CarryDB where
  lotes : List CarryLote
  rutaDias : List RutaDia
  eventos : List CarryEvento
  nextLoteId : Nat
deriving DecidableEq, Repr

/-- The unprinted lineas of a lote
(`lineasSinImprimir = pedidos.flatMap(p => p.lineas)` under the query's
`where printed_at: null` filter). -/
def loteUnprintedLineas (l : CarryLote) : List CarryLinea :=
  (l.pedidos.map (fun p => p.lineas.filter (fun ln => ln.printed_at == none))).flatten

/-- `prisma.lote.create` under the unique index
`lote_imap_uidvalidity_imap_uid_key`. -/
def insertCarryLoteUnique (l : CarryLote) (lotes : List CarryLote) :
    Except String (List CarryLote) :=
  if lotes.any (fun x =>
      x.imap_uidvalidity == l.imap_uidvalidity && x.imap_uid == l.imap_uid) then
    .error "Unique constraint failed on lote_imap_uidvalidity_imap_uid_key"
  else .ok (lotes ++ [l])

/-- The deep copy of one unprinted line (carryover.ts lines 151–176):
every column is copied, `printed_at` and `print_count` are left to the
schema defaults `NULL` and `0`. -/
def copyCarryLinea (ln : CarryLinea) : CarryLinea :=
  { ln with printed_at := none, print_count := 0 }

/-- The copy of one pedido whose lineas include an unprinted line
(lines 132–177): a fresh pedido with only the unprinted lines, each
deep-copied. -/
def copyCarryPedido (p : CarryPedido) : CarryPedido :=
  { p with lineas := (p.lineas.filter (fun ln => ln.printed_at == none)).map copyCarryLinea }

/-- The loop body of `executeCarryover` for one qualifying lote
(carryover.ts lines 76–196).  The second component of the success value
is the affected route name (for the final route-state pass), `none` when
the lote was skipped. -/
def carryoverLote (nuevoTurnoId : String) (db : CarryDB) (loteAnterior : CarryLote) :
    Except (String × CarryDB) (CarryDB × Option String) :=
  let lineasSinImprimir := loteUnprintedLineas loteAnterior
  if lineasSinImprimir.length = 0 then .ok (db, none)
  else
    match loteAnterior.ruta_norm with
    | none => .ok (db, none)
    | some rutaNorm =>
      let db1 :=
        if db.rutaDias.any (fun rd =>
            rd.turno_id == nuevoTurnoId && rd.ruta_norm == rutaNorm) then db
        else
          { db with rutaDias := db.rutaDias ++
              [{ turno_id := nuevoTurnoId, ruta_norm := rutaNorm,
                 estado_visual := .AZUL, estado_logico := .ACTIVA,
                 reactivaciones_count := 0 }] }
      let copiedPedidos : List CarryPedido :=
        (loteAnterior.pedidos.filter
            (fun p => p.lineas.any (fun ln => ln.printed_at == none))).map
          copyCarryPedido
      let nuevoLote : CarryLote :=
        { id := db1.nextLoteId
          imap_uid := loteAnterior.imap_uid
          imap_uidvalidity := loteAnterior.imap_uidvalidity
          received_at := loteAnterior.received_at
          subject_raw := loteAnterior.subject_raw
          body_raw := loteAnterior.body_raw
          parse_status := .OK
          ruta_norm := some rutaNorm
          productos_version_id := loteAnterior.productos_version_id
          rutas_version_id := loteAnterior.rutas_version_id
          original_turno_id := nuevoTurnoId
          carried_over := true
          pedidos := copiedPedidos }
      match insertCarryLoteUnique nuevoLote db1.lotes with
      | .error e => .error (e, db1)
      | .ok lotes1 =>
        .ok ({ db1 with
                lotes := lotes1
                nextLoteId := db1.nextLoteId + 1
                eventos := db1.eventos ++
                  [{ tipo := "LOTE_CARRYOVER",
                     lote_original_id := loteAnterior.id,
                     lote_nuevo_id := nuevoLote.id,
                     lineas_count := lineasSinImprimir.length }] },
             some rutaNorm)

/-- `countPendienteImprimible` over this database (unprinted lineas of
lotes whose `ruta_dia` is the given shift and route). -/
def countPendienteCarry (db : CarryDB) (turnoId rutaNorm : String) : Nat :=
  ((db.lotes.filter (fun l =>
      l.original_turno_id == turnoId && l.ruta_norm == some rutaNorm)).map
    (fun l => (loteUnprintedLineas l).length)).sum

/-- One `updateRutaDiaEstado` call of the final route-state pass. -/
def updateRutaDiaCarry (turnoId : String) (db : CarryDB) (rutaNorm : String) : CarryDB :=
  { db with rutaDias := db.rutaDias.map (fun rd =>
      if rd.turno_id == turnoId && rd.ruta_norm == rutaNorm then
        updateRutaDiaEstado (countPendienteCarry db turnoId rutaNorm) rd
      else rd) }

/-- `executeCarryover` (lines 39–207): select the previous shift's lotes
having an unprinted line, run the loop body on each (an uncaught insert
error aborts the whole call), then run the route-state pass over the set
of affected routes. -/
def executeCarryover (nuevoTurnoId turnoAnteriorId : String) (db : CarryDB) :
    Except (String × CarryDB) CarryDB :=
  let lotesConPendientes := db.lotes.filter
    (fun l => l.original_turno_id == turnoAnteriorId &&
      l.pedidos.any (fun p => p.lineas.any (fun ln => ln.printed_at == none)))
  let init : Except (String × CarryDB) (CarryDB × List String) := Except.ok (db, [])
  let looped := lotesConPendientes.foldl
    (fun acc lote =>
      match acc with
      | Except.error e => Except.error e
      | Except.ok (d, affected) =>
        match carryoverLote nuevoTurnoId d lote with
        | Except.error e => Except.error e
        | Except.ok (d1, none) => Except.ok (d1, affected)
        | Except.ok (d1, some r) => Except.ok (d1, affected ++ [r]))
    init
  match looped with
  | Except.error e => Except.error e
  | Except.ok (d, affected) =>
    Except.ok (affected.dedup.foldl (updateRutaDiaCarry nuevoTurnoId) d)

/-- The unprinted line carried by the previous shift's lote. -/
def prevLinea : CarryLinea :=
  { seq_in_cliente := 1, cantidad := 2, unidad_raw := "L",
    producto_raw := "Leche", producto_norm := "LECHE",
    precio_raw := some "1.20", precio_num := none, moneda := some "EUR",
    match_method := "EXACT", match_score := some 1, familia := 1,
    codigo_funcional := 1, operario_id := some "O1", assigned_at := some 10,
    linea_observacion := none, printed_at := none, print_count := 0 }

/-- The previous (CLOSED) shift's lote with one unprinted line. -/
def prevLote : CarryLote :=
  { id := 0, imap_uid := 5, imap_uidvalidity := 7, received_at := 40,
    subject_raw := "Ruta Norte", body_raw := "Cliente: Super Uno",
    parse_status := .OK, ruta_norm := some "RUTA NORTE",
    productos_version_id := some 1, rutas_version_id := some 1,
    original_turno_id := "T1", carried_over := false,
    pedidos := [{ codigo_cliente := "", nombre_cliente_raw := "Super Uno",
                  localidad_raw := none, cliente_affinity_key := "SUPER UNO",
                  observaciones := none, lineas := [prevLinea] }] }

/-- The database at the moment the new shift `T2` is opened. -/
def carryDB0 : CarryDB :=
  { lotes := [prevLote]
    rutaDias := [{ turno_id := "T1", ruta_norm := "RUTA NORTE",
                   estado_visual := .AZUL, estado_logico := .ACTIVA,
                   reactivaciones_count := 0 }]
    eventos := []
    nextLoteId := 1 }

/-- C8: the carryover lote copies the `(imap_uidvalidity, imap_uid)` of
the original lote (carryover.ts lines 114–115), which the unique index
`lote_imap_uidvalidity_imap_uid_key` forbids while the original row
exists: on a previous shift with one unprinted line, `executeCarryover`
aborts at the lote insert with the unique-constraint error, having
created the new `ruta_dia` but no carried lote, no copied lines and no
`LOTE_CARRYOVER` event — instead of creating the carried-over lote the
claim (and the spec) describe. -/
theorem executeCarryover_hits_unique_index :
    executeCarryover "T2" "T1" carryDB0 =
      .error ("Unique constraint failed on lote_imap_uidvalidity_imap_uid_key",
        { lotes := [prevLote]
          rutaDias := [{ turno_id := "T1", ruta_norm := "RUTA NORTE",
                         estado_visual := .AZUL, estado_logico := .ACTIVA,
                         reactivaciones_count := 0 },
                       { turno_id := "T2", ruta_norm := "RUTA NORTE",
                         estado_visual := .AZUL, estado_logico := .ACTIVA,
                         reactivaciones_count := 0 }]
          eventos := []
          nextLoteId := 1 }) := by
  rfl

end Dacrisa
